import Mathlib

/-!
# Verification of the terraform-tools documentation/schema checker

A shallow embedding of the Go sources of `nicolai86/terraform-tools`
(the `doc-checker` and schema-checker programs) together with proofs
about the behaviour claimed by the specification.

Modelling conventions:
* Go AST nodes (`go/ast`) are embedded as the inductive `Expr` / `GoType` /
  `Stmt` / `Decl` below; only the node shapes the programs inspect are
  distinguished, everything else is `other`.
* A Go type assertion `x.(*ast.T)` that the source performs *unchecked*
  panics when it fails; a panic aborts the whole run.  Such aborts are
  modelled by `Option`: `none` is a panic / fatal abort, `some v` is a
  normal completion with result `v`.
* Go `map[string][]byte` values are modelled as functions
  `String → Option String`; a missing key reads as `none`, and the Go
  zero-value read `m[k]` of a missing key (the `nil` byte slice) is
  `(m k).getD ""`.
* All modelled source text is ASCII, so Go's byte-indexed slicing
  coincides with the character-list operations used here.
-/

set_option maxHeartbeats 1000000

namespace TT

/-- `decodeString` embeds the Go helper `decodeString(val string) string`,
whose body is `val[1 : len(val)-1]`: it removes the first and the last
character (the literal's delimiters).  Go panics when `len(val) < 2`; every
literal handed to it in the modelled code carries both delimiters, where the
total list version below agrees with the Go slice. -/
def decodeString (s : String) : String := ⟨(s.data.drop 1).dropLast⟩

/-- A quoted Go string literal as it appears in `ast.BasicLit.Value`:
the payload surrounded by double quotes. -/
def quoteStr (s : String) : String := ⟨'"' :: (s.data ++ ['"'])⟩

/-- `strContains s pat` embeds `strings.Contains(s, pat)`: some index of `s`
starts an occurrence of `pat`. -/
def strContains (s pat : String) : Bool :=
  (List.range (s.data.length + 1)).any fun i => pat.data.isPrefixOf (s.data.drop i)

/-- `strStartsWith s pat` embeds `strings.HasPrefix(s, pat)`. -/
def strStartsWith (s pat : String) : Bool := pat.data.isPrefixOf s.data

/-- `strHasSuffix s pat` embeds `strings.HasSuffix(s, pat)`. -/
def strHasSuffix (s pat : String) : Bool := pat.data.isSuffixOf s.data

/-- `strDrop s n` embeds the Go slice `s[n:]` (ASCII: bytes = characters). -/
def strDrop (s : String) (n : Nat) : String := ⟨s.data.drop n⟩

/-- Character-level splitter on the newline character; embeds the line
scanning of `bufio.Scanner` / splitting a file into its lines. -/
def splitLinesChars : List Char → List (List Char)
  | [] => [[]]
  | c :: cs =>
    if c = '\n' then [] :: splitLinesChars cs
    else
      match splitLinesChars cs with
      | [] => [[c]]
      | p :: ps => (c :: p) :: ps

/-- The lines of a fragment's content. -/
def linesOf (content : String) : List String :=
  (splitLinesChars content.data).map fun l => ⟨l⟩

/-- Everything after the first occurrence of the separator `": "`;
`none` when the separator does not occur.  Together with `upToSep` this
embeds `strings.Split(line, ": ")[1]`. -/
def afterFirstSep : List Char → Option (List Char)
  | [] => none
  | c :: cs =>
    if [':', ' '].isPrefixOf (c :: cs) then some (cs.drop 1)
    else afterFirstSep cs

/-- The prefix of a character list up to (excluding) the next `": "`. -/
def upToSep : List Char → List Char
  | [] => []
  | c :: cs =>
    if [':', ' '].isPrefixOf (c :: cs) then []
    else c :: upToSep cs

/-- `parts[1]` of `strings.Split(line, ": ")`: the chunk between the first
occurrence of `": "` and the following one (or the end of the line).
`none` models the index-out-of-range panic when no separator occurs. -/
def splitPart1 (line : String) : Option String :=
  (afterFirstSep line.data).map fun r => ⟨upToSep r⟩

/-- `joinComma` embeds `strings.Join(msgs, ", ")`. -/
def joinComma : List String → String
  | [] => ""
  | [s] => s
  | s :: rest => s ++ ", " ++ joinComma rest

/-! ## The Go AST embedding -/

/-- The expression shapes inspected by the programs.

For `ident`, `objValues` models the resolution chain
`Ident.Obj.Decl.(*ast.ValueSpec).Values` used by the schema extractor:
`some vs` when the identifier resolves to a same-file `ValueSpec` with
value list `vs`, `none` when `Obj` is nil (unresolved) or the declaration
is not a `ValueSpec` — both of which make the unchecked Go chain panic. -/
inductive Expr where
  | basicLit (value : String)
  | ident (name : String) (objValues : Option (List Expr))
  | callExpr (fn : Expr) (args : List Expr)
  | compositeLit (typ : Option Expr) (elts : List Expr)
  | keyValue (key value : Expr)
  | unaryExpr (x : Expr)
  | other

/-- The result-type shapes inspected when deciding whether a function is a
constructor (`*schema.Resource`). -/
inductive GoType where
  | star (x : GoType)
  | selector (x : GoType) (sel : String)
  | namedType (n : String)
  | otherType

/-- The statement shapes inspected by the programs. -/
inductive Stmt where
  | ret (results : List Expr)
  | other

/-- A function declaration: its name, its result-type list
(`Type.Results`, `none` when the results clause is nil), and its body. -/
structure FuncDecl where
  name : String
  results : Option (List GoType)
  body : List Stmt

/-- A top-level declaration of a parsed file. -/
inductive Decl where
  | func (f : FuncDecl)
  | other

/-! ## Catalog extractor (`parseProviderDefinition`, doc-checker) -/

/-- Go's `resourceDefinition{name, fnc}`. -/
structure resourceDefinition where
  name : String
  fnc : String
deriving DecidableEq

/-- Go's `provider{datasources, resources}`. -/
structure provider where
  datasources : List resourceDefinition
  resources : List resourceDefinition
deriving DecidableEq

/-- One entry of `ResourcesMap` / `DataSourcesMap`:
`elttt.(*ast.KeyValueExpr)` with `Key.(*ast.BasicLit)` (decoded) and
`Value.(*ast.CallExpr).Fun.(*ast.Ident)`.  All four assertions are
unchecked in the source — any mismatch is a panic (`none`). -/
def parseMapEntry (e : Expr) : Option resourceDefinition :=
  match e with
  | Expr.keyValue (Expr.basicLit s) (Expr.callExpr (Expr.ident n _) _) =>
      some ⟨decodeString s, n⟩
  | _ => none

/-- One field of the returned `schema.Provider` literal: the key must be an
identifier (unchecked assertions); `ResourcesMap` / `DataSourcesMap`
collect their entries in source order, any other field is skipped with a
debug note. -/
def parseStructElt (p : provider) (e : Expr) : Option provider :=
  match e with
  | Expr.keyValue (Expr.ident key _) v =>
      if key = "ResourcesMap" then
        match v with
        | Expr.compositeLit _ elts =>
            (elts.mapM parseMapEntry).map fun l =>
              { p with resources := p.resources ++ l }
        | _ => none
      else if key = "DataSourcesMap" then
        match v with
        | Expr.compositeLit _ elts =>
            (elts.mapM parseMapEntry).map fun l =>
              { p with datasources := p.datasources ++ l }
        | _ => none
      else some p
  | _ => none

/-- One statement of `Provider`'s body: non-return statements are skipped;
a return statement must carry `&CompositeLit{...}` as its first result
(`Results[0].(*ast.UnaryExpr).X.(*ast.CompositeLit)`, all unchecked). -/
def parseStmt (p : provider) (s : Stmt) : Option provider :=
  match s with
  | Stmt.other => some p
  | Stmt.ret rs =>
      match rs.head? with
      | none => none
      | some r =>
          match r with
          | Expr.unaryExpr (Expr.compositeLit _ elts) => elts.foldlM parseStructElt p
          | _ => none

/-- One top-level declaration: only function declarations named
`Provider` are examined. -/
def parseDecl (p : provider) (d : Decl) : Option provider :=
  match d with
  | Decl.func f => if f.name = "Provider" then f.body.foldlM parseStmt p else some p
  | Decl.other => some p

/-- `parseProviderDefinition` of the doc-checker: extract the declared
datasources and resources from a parsed `provider.go` file.  `none` models
the panic that Go raises on any shape deviation, aborting the run. -/
def parseProviderDefinition (decls : List Decl) : Option provider :=
  decls.foldlM parseDecl ⟨[], []⟩

/-- A well-shaped map entry `"name": constructor(),` as written in a
provider registration literal. -/
def mkMapEntry (nf : String × String) : Expr :=
  Expr.keyValue (Expr.basicLit (quoteStr nf.1)) (Expr.callExpr (Expr.ident nf.2 none) [])

/-- A parsed file holding a registration declaration of the expected
shape: a `Provider` function returning a single struct literal with a
`ResourcesMap` field (entries `rs`) and a `DataSourcesMap` field
(entries `ds`). -/
def mkProviderFile (rs ds : List (String × String)) : List Decl :=
  [Decl.func ⟨"Provider", some [GoType.otherType],
    [Stmt.ret [Expr.unaryExpr (Expr.compositeLit (some (Expr.ident "Provider" none))
      [Expr.keyValue (Expr.ident "ResourcesMap" none)
         (Expr.compositeLit (some Expr.other) (rs.map mkMapEntry)),
       Expr.keyValue (Expr.ident "DataSourcesMap" none)
         (Expr.compositeLit (some Expr.other) (ds.map mkMapEntry))])]]⟩]

/-! ## Rule engine (schema checker, `part_001`)

The checks receive `(attributeName, def *ast.CompositeLit, schema ast.Node)`;
they only ever read `def.Elts`, so the embedding passes the element list
`defElts` directly.  Each check returns `Option (Option String)`:
the outer `Option` is the panic of an unchecked assertion inside the check,
the inner one is the check's verdict (`some msg` = violation). -/

/-- `elt.(*ast.KeyValueExpr).Key.(*ast.Ident).Name` for one property of an
attribute definition; `none` models the panic of either unchecked
assertion. -/
def propKeyName (e : Expr) : Option String :=
  match e with
  | Expr.keyValue (Expr.ident n _) _ => some n
  | _ => none

/-- `checkDescription`: scans every property of the attribute definition
(ORing `name == "Description"`), and fails when none is named
`Description`.  The property's value is never read. -/
def checkDescription (attributeName : String) (defElts : List Expr) : Option (Option String) :=
  (defElts.mapM propKeyName).map fun names =>
    if names.contains "Description" then none
    else some (attributeName ++ ": Missing Description attribute")

/-- `checkAttributeName`: fails exactly when the received name equals the
reserved identifier `id`.  The other two parameters are unused, as in the
source. -/
def checkAttributeName (attributeName : String) (defElts : List Expr) (schema : Expr) :
    Option (Option String) :=
  let _ := defElts
  let _ := schema
  some (if attributeName = "id" then some (attributeName ++ ": attribute name is reserved") else none)

/-- The conflict targets contributed by one property of an attribute
definition: a `ConflictsWith` property must carry a composite literal of
basic literals (decoded); any other property contributes nothing.  `none`
models the panics of the unchecked assertions. -/
def conflictsOf (e : Expr) : Option (List String) :=
  match e with
  | Expr.keyValue (Expr.ident n _) v =>
      if n = "ConflictsWith" then
        match v with
        | Expr.compositeLit _ elts =>
            elts.mapM fun c =>
              match c with
              | Expr.basicLit s => some (decodeString s)
              | _ => none
        | _ => none
      else some []
  | _ => none

/-- `fmt.Errorf("conflict target %q does not exist", conflict)`. -/
def conflictMessage (c : String) : String :=
  "conflict target \"" ++ c ++ "\" does not exist"

mutual

/-- `collectAttributeNames`' visitor `attributeCollector`, run by
`ast.Walk`: a `KeyValueExpr` whose key is a basic literal contributes its
decoded key and is not descended into; any other `KeyValueExpr` is skipped
whole; every other node is descended into. -/
def collectFrom : Expr → List String
  | Expr.keyValue k _ =>
      match k with
      | Expr.basicLit s => [decodeString s]
      | _ => []
  | Expr.compositeLit typ elts =>
      (match typ with
       | some te => collectFrom te
       | none => []) ++ collectFromList elts
  | Expr.callExpr fn args => collectFrom fn ++ collectFromList args
  | Expr.unaryExpr x => collectFrom x
  | _ => []

def collectFromList : List Expr → List String
  | [] => []
  | e :: es => collectFrom e ++ collectFromList es

end

/-- `collectAttributeNames(schema)`: all attribute names found by walking
the schema node with `attributeCollector`. -/
def collectAttributeNames (schema : Expr) : List String := collectFrom schema

/-- `checkConflictsWith`: gather the targets of every `ConflictsWith`
property; succeed when there are none; otherwise fail iff some target is
absent from `collectAttributeNames schema`, with a single error message
joining one `conflict target %q does not exist` per missing target. -/
def checkConflictsWith (attributeName : String) (defElts : List Expr) (schema : Expr) :
    Option (Option String) :=
  (defElts.mapM conflictsOf).map fun css =>
    let conflicts := css.flatten
    if conflicts.isEmpty then none
    else
      let attributeNames := collectAttributeNames schema
      let missing := conflicts.filter fun c => ! attributeNames.contains c
      if missing.isEmpty then none
      else some (attributeName ++ ": " ++ joinComma (missing.map conflictMessage))

/-- The check list `checks`, run in order for every attribute; no check
short-circuits another (a panic inside one aborts the run). -/
def runChecks (attributeName : String) (defElts : List Expr) (schema : Expr) :
    Option (List String) := do
  let r1 ← checkDescription attributeName defElts
  let r2 ← checkAttributeName attributeName defElts schema
  let r3 ← checkConflictsWith attributeName defElts schema
  some ([r1, r2, r3].filterMap id)

mutual

/-- The `attributeChecker` visitor run by `ast.Walk` over the schema
composite: a `KeyValueExpr` with a basic-literal key and a composite-literal
value runs every check on it — passing the RAW literal text `lit.Value`
(delimiters included) as the attribute name — then keeps walking into the
node (the basic-literal key child has no contribution, so the value's
traversal is inlined); a `KeyValueExpr` whose key is no basic literal skips
its subtree; everything else is descended into.  The fixed `schema`
argument is the enclosing schema node handed over by `schemaChecker`. -/
def walkChk (schema : Expr) : Expr → Option (List String)
  | Expr.keyValue (Expr.basicLit s) (Expr.compositeLit vt velts) => do
      let here ← runChecks s velts schema
      let t2 ← (match vt with
                | some te => walkChk schema te
                | none => some [])
      let e2 ← walkChkList schema velts
      some (here ++ t2 ++ e2)
  | Expr.keyValue (Expr.basicLit _) v => walkChk schema v
  | Expr.keyValue _ _ => some []
  | Expr.compositeLit (some te) elts => do
      let t2 ← walkChk schema te
      let e2 ← walkChkList schema elts
      some (t2 ++ e2)
  | Expr.compositeLit none elts => walkChkList schema elts
  | Expr.callExpr fn args => do
      let f2 ← walkChk schema fn
      let a2 ← walkChkList schema args
      some (f2 ++ a2)
  | Expr.unaryExpr x => walkChk schema x
  | _ => some []

def walkChkList (schema : Expr) : List Expr → Option (List String)
  | [] => some []
  | e :: es => do
      let r ← walkChk schema e
      let rs ← walkChkList schema es
      some (r ++ rs)

end

/-- `schemaChecker` finding the schema composite `c` returns
`attributeChecker(fset, file, c)` and `ast.Walk` continues over `c`'s
subtree with it: the violations (in emission order) of checking schema
composite `c` against itself. -/
def runAttributeChecker (c : Expr) : Option (List String) := walkChk c c

/-! ## Documentation classifier and index (doc-checker, `part_000`) -/

/-- Go's `docType` with its two values. -/
inductive docType where
  | docTypeDatasource
  | docTypeResource
deriving DecidableEq

/-- Go's `documentation` struct: two maps from canonical name to fragment
content (content modelled as `String`). -/
structure documentation where
  Datasources : String → Option String
  Resources : String → Option String

/-- Strip the conventional `docs-` leading segment. -/
def stripDocsPrefix (line : String) : String :=
  if strStartsWith line "docs-" then strDrop line 5 else line

/-- Strip a `providerName-` leading segment. -/
def stripProviderPrefix (providerName line : String) : String :=
  if strStartsWith line ⟨providerName.data ++ ['-']⟩
  then strDrop line (providerName.data.length + 1) else line

/-- The character after the LAST occurrence of `pat` in `s`:
`s[strings.LastIndex(s, pat) + len(pat):]`.  Only called under a
`strings.Contains` guard, where the occurrence exists. -/
def afterLastOcc (s pat : String) : String :=
  match ((List.range (s.data.length + 1)).filter fun i =>
      pat.data.isPrefixOf (s.data.drop i)).getLast? with
  | some i => strDrop s (i + pat.data.length)
  | none => s

/-- Normalisation of the classified suffix: both
`strings.Replace(·, " ", "_", -1)` and `strings.Replace(·, "-", "_", -1)`
replace single characters, composed here into one character map. -/
def normalizeName (s : String) : String :=
  ⟨s.data.map fun c => if c = ' ' ∨ c = '-' then '_' else c⟩

/-- The keyword branches of `classifyDoc` applied to the stripped
`sidebar_current` value: the datasource test (content keywords or path
hints) wins over the resource test; each branch strips a leading
`datasource-`/`resource-` segment, then everything through the LAST
remaining occurrence of that infix, and yields the raw suffix.  `none`
means neither branch matched and scanning continues with the next line. -/
def classifyValue (path line : String) : Option (String × docType) :=
  if strContains line "datasource" ∨ strContains line "data-source" ∨
     strContains path "/d/" ∨ strContains path "data_source" then
    let l := if strStartsWith line "datasource-" then strDrop line 11 else line
    let l := if strContains l "datasource-" then afterLastOcc l "datasource-" else l
    some (l, docType.docTypeDatasource)
  else if strContains line "resource" ∨ strContains path "/r/" then
    let l := if strStartsWith line "resource-" then strDrop line 9 else line
    let l := if strContains l "resource-" then afterLastOcc l "resource-" else l
    some (l, docType.docTypeResource)
  else none

/-- `parts := strings.Split(line, ": "); parts[1][1:len(parts[1])-1]`:
the quoted value of a front-matter line.  `none` models the panics when
there is no separator (`parts[1]` out of range) or the part is too short
for the slice. -/
def sidebarValue (line : String) : Option String :=
  match splitPart1 line with
  | none => none
  | some p => if 2 ≤ p.data.length then some (decodeString p) else none

/-- The scanning loop of `classifyDoc` over the fragment's lines.
Result: `none` = panic, `some none` = classification failed
(`could not find sidebar_current`), `some (some (name, t))` = classified
with canonical name `name`.  A line carrying `sidebar_current` whose value
matches neither keyword branch does NOT stop the scan. -/
def classifyLines (providerName path : String) : List String → Option (Option (String × docType))
  | [] => some none
  | l :: rest =>
    if strContains l "sidebar_current" then
      match sidebarValue l with
      | none => none
      | some v =>
          match classifyValue path (stripProviderPrefix providerName (stripDocsPrefix v)) with
          | some (n, t) =>
              some (if n = "" then none
                    else some (⟨providerName.data ++ '_' :: (normalizeName n).data⟩, t))
          | none => classifyLines providerName path rest
    else classifyLines providerName path rest

/-- `classifyDoc(providerName, path, content)` of the doc-checker
(`part_000`): scan the content's lines for the front-matter marker and
classify.  The canonical name is
`providerName + "_" + normalize(suffix)`. -/
def classifyDoc (providerName path content : String) : Option (Option (String × docType)) :=
  classifyLines providerName path (linesOf content)

/-- The extension filter `candidate` of `loadDocumentation`. -/
def candidateDoc (extensions : List String) (path : String) : Bool :=
  extensions.any fun ext => strHasSuffix path ext

/-- `d.Datasources[docName] = docset` / `d.Resources[docName] = docset`:
map update, overwriting any earlier binding of the same canonical name. -/
def docInsert (d : documentation) (n c : String) (t : docType) : documentation :=
  match t with
  | docType.docTypeDatasource =>
      ⟨fun k => if k = n then some c else d.Datasources k, d.Resources⟩
  | docType.docTypeResource =>
      ⟨d.Datasources, fun k => if k = n then some c else d.Resources k⟩

/-- One step of the `filepath.Walk` callback in `loadDocumentation`:
non-candidate paths are skipped; a fragment that fails classification is
skipped with a debug note; a classified fragment is stored in the map of
its kind, overwriting any earlier same-name fragment. -/
def loadStep (providerName : String) (extensions : List String) (d : documentation)
    (frag : String × String) : Option documentation :=
  if candidateDoc extensions frag.1 then
    match classifyDoc providerName frag.1 frag.2 with
    | none => none
    | some none => some d
    | some (some (n, t)) => some (docInsert d n frag.2 t)
  else some d

/-- `loadDocumentation`: fold the walk callback over the fragments in
filesystem-walk order, starting from empty maps. -/
def loadDocumentation (providerName : String) (extensions : List String)
    (frags : List (String × String)) : Option documentation :=
  frags.foldlM (loadStep providerName extensions) ⟨fun _ => none, fun _ => none⟩

/-- Reading the documentation index for one kind. -/
def docLookup (d : documentation) (t : docType) (n : String) : Option String :=
  match t with
  | docType.docTypeDatasource => d.Datasources n
  | docType.docTypeResource => d.Resources n

/-! ## Cross-reference checker (`verifyAttributes`, doc-checker `part_000`) -/

/-- The attribute-key resolution of `verifyAttributes`: a basic-literal key
is used directly; an identifier key is resolved through
`Key.(*ast.Ident).Obj.Decl.(*ast.ValueSpec).Values[0].(*ast.BasicLit)` —
every link of that chain is unchecked, so an unresolved identifier, a
non-`ValueSpec` declaration, an empty value list or a non-literal first
value panics (`none`). -/
def resolveKey (e : Expr) : Option String :=
  match e with
  | Expr.basicLit v => some v
  | Expr.ident _ (some vs) =>
      match vs.head? with
      | some (Expr.basicLit v) => some v
      | _ => none
  | _ => none

/-- `fmt.Sprintf("`%s`", decodeString(v))`. -/
def expectedMarkupOf (v : String) : String := "`" ++ decodeString v ++ "`"

/-- `log.Printf("Missing %q in docs of %q\n", expectedMarkup, schemaName)`
(without the trailing newline). -/
def missingMessage (markup schemaName : String) : String :=
  "Missing \"" ++ markup ++ "\" in docs of \"" ++ schemaName ++ "\""

/-- One entry of the `Schema` map in `verifyAttributes`: non-key-value
elements are skipped with a debug note; otherwise the key is resolved, the
backtick markup derived, and its absence from the fragment reported. -/
def checkSchemaElt (docset schemaName : String) (e : Expr) : Option (List String) :=
  match e with
  | Expr.keyValue k _ =>
      match resolveKey k with
      | none => none
      | some v =>
          let markup := expectedMarkupOf v
          if strContains docset markup then some [] else some [missingMessage markup schemaName]
  | _ => some []

/-- One field of the constructor's returned `schema.Resource` literal:
the field key must be an identifier (unchecked assertion); only the
`Schema` field is examined, and only when its value is a composite
literal (checked assertion). -/
def processResourceElt (docset schemaName : String) (e : Expr) : Option (List String) :=
  match e with
  | Expr.keyValue k v =>
      match k with
      | Expr.ident n _ =>
          if n = "Schema" then
            match v with
            | Expr.compositeLit _ selts =>
                (selts.mapM (checkSchemaElt docset schemaName)).map List.flatten
            | _ => some []
          else some []
      | _ => none
  | _ => some []

/-- The last catalog entry whose constructor name matches `fn`: the Go
find loops overwrite their result on every match, so the final value is
the last match. -/
def lastMatch (l : List resourceDefinition) (fn : String) : Option resourceDefinition :=
  (l.filter fun v => v.fnc == fn).getLast?

/-- The body processing of `verifyAttributes` for one matched constructor:
`Body.List[0]` (panic when the body is empty) must be a return statement
(else skip), whose first result (`Results[0]`, panic when absent) must be
`&CompositeLit{...}` (unchecked). -/
def verifyFuncBody (docset schemaName : String) (body : List Stmt) : Option (List String) :=
  match body.head? with
  | none => none
  | some Stmt.other => some []
  | some (Stmt.ret rs) =>
      match rs.head? with
      | none => none
      | some (Expr.unaryExpr (Expr.compositeLit _ elts)) =>
          (elts.mapM (processResourceElt docset schemaName)).map List.flatten
      | some _ => none

/-- One function declaration in `verifyAttributes`: the constructor-shape
filter (single result of type `*schema.Resource`; the `Sel.Name`
comparison short-circuits before the unchecked `X.(*ast.Ident)` assertion),
then the catalog search (datasource loop first, resource loop second, last
match wins), then the body processing.  The docset of an entry missing
from the index is the nil byte slice, read as `""`. -/
def verifyFunc (prov : provider) (docs : documentation) (f : FuncDecl) : Option (List String) :=
  match f.results with
  | none => some []
  | some [GoType.star inner] =>
      match inner with
      | GoType.selector sx sel =>
          if sel = "Resource" then
            match sx with
            | GoType.namedType nm =>
                if nm = "schema" then
                  match lastMatch prov.resources f.name with
                  | some r => verifyFuncBody ((docs.Resources r.name).getD "") r.name f.body
                  | none =>
                      match lastMatch prov.datasources f.name with
                      | some v => verifyFuncBody ((docs.Datasources v.name).getD "") v.name f.body
                      | none => some []
                else some []
            | _ => none
          else some []
      | _ => some []
  | some _ => some []

/-- `verifyAttributes(path, prov, docs)` of the doc-checker, applied to an
already-parsed file: process every function declaration, collecting the
`Missing ... in docs of ...` diagnostics in order.  `none` models a panic
aborting the run. -/
def verifyAttributes (decls : List Decl) (prov : provider) (docs : documentation) :
    Option (List String) :=
  (decls.mapM fun d =>
    match d with
    | Decl.func f => verifyFunc prov docs f
    | Decl.other => some []).map List.flatten

/-! ## Concrete scenario inputs used by the claim theorems -/

/-- A schema composite holding the single attribute `"id"` (written as a
string literal, hence carrying its quotes in `ast.BasicLit.Value`), whose
definition has both a `Type` and a `Description` property. -/
def schemaC3 : Expr :=
  Expr.compositeLit (some (Expr.ident "M" none))
    [Expr.keyValue (Expr.basicLit (quoteStr "id"))
      (Expr.compositeLit none
        [Expr.keyValue (Expr.ident "Type" none) (Expr.ident "TypeString" none),
         Expr.keyValue (Expr.ident "Description" none) (Expr.basicLit (quoteStr "the id"))])]

/-- A schema composite with two attributes: one whose map key is the named
constant `iname` (same-file initializer the literal `"x"`), and the
string-literal attribute `"a"` whose definition declares
`ConflictsWith: ["x"]` (and a `Description`, so the conflict check is the
only one that can fire). -/
def c9schema (iname : String) (props : Expr) : Expr :=
  Expr.compositeLit none
    [Expr.keyValue (Expr.ident iname (some [Expr.basicLit (quoteStr "x")])) props,
     Expr.keyValue (Expr.basicLit (quoteStr "a")) (Expr.compositeLit none
       [Expr.keyValue (Expr.ident "Description" none) (Expr.basicLit (quoteStr "d")),
        Expr.keyValue (Expr.ident "ConflictsWith" none)
          (Expr.compositeLit none [Expr.basicLit (quoteStr "x")])])]

/-- A documentation index with no fragments at all. -/
def emptyDocs : documentation := ⟨fun _ => none, fun _ => none⟩

/-- A schema-map entry `"a": &schema.Schema{}` with a string-literal key. -/
def mkAttrEntry (a : String) : Expr :=
  Expr.keyValue (Expr.basicLit (quoteStr a)) (Expr.compositeLit none [])

/-- A parsed file holding one constructor of the expected shape
(single result `*schema.Resource`, body returning `&schema.Resource{Schema:
map[string]*schema.Schema{...}}`) with the given schema-map entries. -/
def mkConstructorFile (fnc : String) (selts : List Expr) : List Decl :=
  [Decl.func ⟨fnc, some [GoType.star (GoType.selector (GoType.namedType "schema") "Resource")],
    [Stmt.ret [Expr.unaryExpr (Expr.compositeLit (some (Expr.ident "Resource" none))
      [Expr.keyValue (Expr.ident "Schema" none)
        (Expr.compositeLit (some (Expr.ident "Map" none)) selts)])]]⟩]

/-- The datasource constructor file of the `acme_region` scenario:
attributes `name` and `zone`. -/
def c6file : List Decl :=
  mkConstructorFile "dataSourceRegion" [mkAttrEntry "name", mkAttrEntry "zone"]

/-- A resource constructor file whose schema map has an attribute keyed by
an identifier with no resolvable declaration, followed by the literal
attribute `"after"`. -/
def c7file : List Decl :=
  mkConstructorFile "resourceThing"
    [Expr.keyValue (Expr.ident "attrNameConst" none) (Expr.compositeLit none []),
     mkAttrEntry "after"]

/-- The same constructor file without the identifier-keyed attribute. -/
def c7fileGood : List Decl := mkConstructorFile "resourceThing" [mkAttrEntry "after"]

/-- An earlier documentation fragment classifying to `acme_foo`. -/
def c10c1 : String := "sidebar_current: \"docs-acme-datasource-foo\""

/-- A later documentation fragment classifying to the same canonical name
`acme_foo` and the same kind, with different content. -/
def c10c2 : String := "sidebar_current: \"docs-acme-datasource-foo\"\nmore content"

/-- The documentation index produced from the two `acme_foo` fragments in
walk order. -/
def c10D : documentation :=
  docInsert (docInsert ⟨fun _ => none, fun _ => none⟩ "acme_foo" c10c1 docType.docTypeDatasource)
    "acme_foo" c10c2 docType.docTypeDatasource

end TT

namespace TT

theorem decode_quote (s : String) : decodeString (quoteStr s) = s := by
  cases s with
  | mk data => simp [decodeString, quoteStr, List.dropLast_concat]

theorem mapM_parseMapEntry (l : List (String × String)) :
    (l.map mkMapEntry).mapM parseMapEntry =
      some (l.map fun nf => resourceDefinition.mk nf.1 nf.2) := by
  induction l with
  | nil => rfl
  | cons h t ih =>
    rw [List.map_cons, List.mapM_cons, ih]
    simp [mkMapEntry, parseMapEntry, decode_quote]

theorem data_append (a b : String) : (a ++ b).data = a.data ++ b.data := by
  cases a; cases b; rfl

theorem mapM_loop_parseMapEntry (l : List (String × String)) (acc : List resourceDefinition) :
    List.mapM.loop parseMapEntry (l.map mkMapEntry) acc =
      some (acc.reverse ++ l.map fun nf => resourceDefinition.mk nf.1 nf.2) := by
  induction l generalizing acc with
  | nil => simp [List.mapM.loop]
  | cons h t ih =>
    simp [List.mapM.loop, mkMapEntry, parseMapEntry, decode_quote, ih]

theorem parse_mkProviderFile (rs ds : List (String × String)) :
    parseProviderDefinition (mkProviderFile rs ds) =
      some ⟨ds.map fun nf => ⟨nf.1, nf.2⟩, rs.map fun nf => ⟨nf.1, nf.2⟩⟩ := by
  simp [parseProviderDefinition, mkProviderFile, parseDecl, parseStmt, parseStructElt,
    List.foldlM, List.mapM, mapM_loop_parseMapEntry]

/-- C1: for every provider registration declaration matching the expected
shape, with resource-map entries `rs` and datasource-map entries `ds`,
`parseProviderDefinition` returns a catalog whose resource list is exactly
the decoded `rs` pairs and whose datasource list is exactly the decoded
`ds` pairs, each in source-literal order; in particular the catalog has
`rs.length` resource entries and `ds.length` datasource entries. -/
theorem c1_catalog_extraction (rs ds : List (String × String)) :
    parseProviderDefinition (mkProviderFile rs ds) =
      some ⟨ds.map fun nf => ⟨nf.1, nf.2⟩, rs.map fun nf => ⟨nf.1, nf.2⟩⟩ ∧
    (parseProviderDefinition (mkProviderFile rs ds)).map
        (fun p => (p.resources.length, p.datasources.length)) =
      some (rs.length, ds.length) := by
  refine ⟨parse_mkProviderFile rs ds, ?_⟩
  rw [parse_mkProviderFile]
  simp

/-- C2 counterexample: with the resource map
`{"a": resourceA(), "a": resourceB()}` the catalog retains BOTH pairs —
the earlier pair `(a, resourceA)` is present in the result, contradicting
the claim that building the catalog keeps only the later entry. -/
theorem c2_counterexample :
    parseProviderDefinition (mkProviderFile [("a", "resourceA"), ("a", "resourceB")] []) =
      some ⟨[], [⟨"a", "resourceA"⟩, ⟨"a", "resourceB"⟩]⟩ ∧
    resourceDefinition.mk "a" "resourceA" ∈
      ([⟨"a", "resourceA"⟩, ⟨"a", "resourceB"⟩] : List resourceDefinition) := by
  exact ⟨rfl, by simp⟩

/-- C2 (amended): when the resource map contains two entries with the same
declared name, the catalog retains both (declaredName, constructorName)
pairs — no shadowing happens while building the catalog. -/
theorem c2_amended (rs ds : List (String × String)) (n f g : String)
    (hf : (n, f) ∈ rs) (hg : (n, g) ∈ rs) :
    ∃ p, parseProviderDefinition (mkProviderFile rs ds) = some p ∧
      resourceDefinition.mk n f ∈ p.resources ∧ resourceDefinition.mk n g ∈ p.resources := by
  refine ⟨_, parse_mkProviderFile rs ds, ?_, ?_⟩
  · exact List.mem_map_of_mem (fun nf => resourceDefinition.mk nf.1 nf.2) hf
  · exact List.mem_map_of_mem (fun nf => resourceDefinition.mk nf.1 nf.2) hg

theorem c2_witness :
    ∃ p, parseProviderDefinition (mkProviderFile [("a", "f1"), ("a", "f2")] []) = some p ∧
      resourceDefinition.mk "a" "f1" ∈ p.resources ∧
      resourceDefinition.mk "a" "f2" ∈ p.resources :=
  c2_amended [("a", "f1"), ("a", "f2")] [] "a" "f1" "f2" (by simp) (by simp)

/-- C3 (code bug): `attributeChecker` passes the RAW key literal
`lit.Value` — quote characters included — as the attribute name, so
`checkAttributeName`'s comparison with `"id"` never succeeds along the only
call path of the check: walking a schema whose attribute is written `"id"`
in the source yields NO reserved-name violation (first conjunct), although
the check itself does fire on the decoded name `id` (second conjunct) and
not on the raw quoted literal (third conjunct). -/
theorem c3_reserved_name_never_fires :
    runAttributeChecker schemaC3 = some [] ∧
    checkAttributeName "id" [] Expr.other = some (some "id: attribute name is reserved") ∧
    checkAttributeName (quoteStr "id") [] Expr.other = some none :=
  ⟨rfl, rfl, rfl⟩

/-- C4: for every attribute whose property list is well shaped (each
property a key-value pair keyed by an identifier, with key names `names`),
`checkDescription` produces a violation iff no property is named
`Description`, and succeeds iff one is — independently of any property's
value. -/
theorem c4_missing_description_iff (attributeName : String) (defElts : List Expr)
    (names : List String) (h : defElts.mapM propKeyName = some names) :
    ((∃ msg, checkDescription attributeName defElts = some (some msg)) ↔
      "Description" ∉ names) ∧
    (checkDescription attributeName defElts = some none ↔ "Description" ∈ names) := by
  simp only [checkDescription]
  rw [h]
  by_cases hc : "Description" ∈ names
  · have : names.contains "Description" = true := by
      simp [List.contains, List.elem_iff, hc]
    simp [this, hc]
  · have : names.contains "Description" = false := by
      simp [List.contains, List.elem_iff, hc]
    simp [this, hc]

theorem c4_witness :
    ((∃ msg, checkDescription (quoteStr "n")
        [Expr.keyValue (Expr.ident "Description" none) (Expr.basicLit (quoteStr ""))] =
          some (some msg)) ↔ "Description" ∉ ["Description"]) ∧
    (checkDescription (quoteStr "n")
        [Expr.keyValue (Expr.ident "Description" none) (Expr.basicLit (quoteStr ""))] =
          some none ↔ "Description" ∈ ["Description"]) :=
  c4_missing_description_iff (quoteStr "n")
    [Expr.keyValue (Expr.ident "Description" none) (Expr.basicLit (quoteStr ""))]
    ["Description"] rfl

/-- C5: for every attribute carrying conflict targets (`css` the per-
property target lists, flattened to a non-empty list): the check succeeds
iff every target occurs in the attribute-name set collected by walking the
entire enclosing schema, and as soon as some target is missing it returns
exactly ONE violation, whose message joins one `conflict target %q does
not exist` entry per missing target. -/
theorem c5_dangling_conflict (attributeName : String) (defElts : List Expr) (schema : Expr)
    (css : List (List String)) (h : defElts.mapM conflictsOf = some css)
    (hne : css.flatten ≠ []) :
    (checkConflictsWith attributeName defElts schema = some none ↔
      ∀ c ∈ css.flatten, c ∈ collectAttributeNames schema) ∧
    ((css.flatten.filter fun c => ! (collectAttributeNames schema).contains c) ≠ [] →
      checkConflictsWith attributeName defElts schema =
        some (some (attributeName ++ ": " ++ joinComma
          (((css.flatten.filter fun c => ! (collectAttributeNames schema).contains c)).map
            conflictMessage)))) := by
  have hE : css.flatten.isEmpty = false := by
    cases hf : css.flatten with
    | nil => exact absurd hf hne
    | cons a l => rfl
  have hform : checkConflictsWith attributeName defElts schema =
      some (if ((css.flatten.filter fun c =>
          ! (collectAttributeNames schema).contains c)).isEmpty then none
        else some (attributeName ++ ": " ++ joinComma
          (((css.flatten.filter fun c => ! (collectAttributeNames schema).contains c)).map
            conflictMessage))) := by
    simp only [checkConflictsWith]
    rw [h]
    simp only [Option.map_some', hE, Bool.false_eq_true, if_false]
  rw [hform]
  constructor
  · by_cases hm : (css.flatten.filter fun c => ! (collectAttributeNames schema).contains c) = []
    · rw [hm]
      simp only [List.isEmpty_nil, if_true]
      rw [List.filter_eq_nil_iff] at hm
      simp only [true_iff]
      intro c hc
      have := hm c hc
      simpa [List.contains, List.elem_iff] using this
    · have : ((css.flatten.filter fun c =>
          ! (collectAttributeNames schema).contains c)).isEmpty = false := by
        cases hf : (css.flatten.filter fun c =>
            ! (collectAttributeNames schema).contains c) with
        | nil => exact absurd hf hm
        | cons a l => rfl
      rw [this]
      simp only [Bool.false_eq_true, if_false]
      constructor
      · intro hcontra
        exact absurd (Option.some.inj hcontra) (by simp)
      · intro hall
        exfalso
        apply hm
        rw [List.filter_eq_nil_iff]
        intro c hc
        simp [List.contains, List.elem_iff, hall c hc]
  · intro hm
    have : ((css.flatten.filter fun c =>
        ! (collectAttributeNames schema).contains c)).isEmpty = false := by
      cases hf : (css.flatten.filter fun c =>
          ! (collectAttributeNames schema).contains c) with
      | nil => exact absurd hf hm
      | cons a l => rfl
    rw [this]
    simp

theorem c5_witness :
    (checkConflictsWith (quoteStr "a")
        [Expr.keyValue (Expr.ident "ConflictsWith" none)
          (Expr.compositeLit none [Expr.basicLit (quoteStr "b"), Expr.basicLit (quoteStr "c")])]
        (Expr.compositeLit none
          [Expr.keyValue (Expr.basicLit (quoteStr "b")) (Expr.compositeLit none [])]) =
        some none ↔
      ∀ c ∈ [["b", "c"]].flatten,
        c ∈ collectAttributeNames (Expr.compositeLit none
          [Expr.keyValue (Expr.basicLit (quoteStr "b")) (Expr.compositeLit none [])])) ∧
    ((([["b", "c"]].flatten.filter fun c =>
        ! (collectAttributeNames (Expr.compositeLit none
          [Expr.keyValue (Expr.basicLit (quoteStr "b")) (Expr.compositeLit none [])])).contains c)) ≠ [] →
      checkConflictsWith (quoteStr "a")
        [Expr.keyValue (Expr.ident "ConflictsWith" none)
          (Expr.compositeLit none [Expr.basicLit (quoteStr "b"), Expr.basicLit (quoteStr "c")])]
        (Expr.compositeLit none
          [Expr.keyValue (Expr.basicLit (quoteStr "b")) (Expr.compositeLit none [])]) =
        some (some ((quoteStr "a") ++ ": " ++ joinComma
          ((([["b", "c"]].flatten.filter fun c =>
            ! (collectAttributeNames (Expr.compositeLit none
              [Expr.keyValue (Expr.basicLit (quoteStr "b")) (Expr.compositeLit none [])])).contains c)).map
            conflictMessage)))) :=
  c5_dangling_conflict (quoteStr "a")
    [Expr.keyValue (Expr.ident "ConflictsWith" none)
      (Expr.compositeLit none [Expr.basicLit (quoteStr "b"), Expr.basicLit (quoteStr "c")])]
    (Expr.compositeLit none
      [Expr.keyValue (Expr.basicLit (quoteStr "b")) (Expr.compositeLit none [])])
    [["b", "c"]] rfl (by simp)

/-- C9: an attribute whose schema-map key is an identifier (a named
constant, here resolving to the literal `"x"`) is omitted from the
attribute-name set the DanglingConflict check consults — the set of this
schema is just `["a"]` — so the attribute `"a"` declaring
`ConflictsWith: ["x"]` receives a dangling-target violation naming `x`,
although the identifier-keyed attribute exists in the schema. -/
theorem c9_ident_key_attribute_dangling (iname : String) (props : Expr) :
    collectAttributeNames (c9schema iname props) = ["a"] ∧
    runAttributeChecker (c9schema iname props) =
      some ["\"a\": conflict target \"x\" does not exist"] :=
  ⟨rfl, rfl⟩

theorem strContains_empty (p : String) (h : p.data ≠ []) : strContains "" p = false := by
  cases hp : p.data with
  | nil => exact absurd hp h
  | cons c cs =>
    show (List.range (("" : String).data.length + 1)).any
        (fun i => p.data.isPrefixOf (("" : String).data.drop i)) = false
    rw [show ("" : String).data = [] from rfl]
    simp [List.range_succ, hp, List.isPrefixOf]

theorem expectedMarkup_ne_nil (v : String) : (expectedMarkupOf v).data ≠ [] := by
  intro hc
  rw [expectedMarkupOf, data_append, data_append] at hc
  have h1 := List.append_eq_nil.mp hc
  have h2 := List.append_eq_nil.mp h1.1
  exact absurd h2.1 (by decide)

theorem checkSchemaElt_mkAttrEntry_empty (nm a : String) :
    checkSchemaElt "" nm (mkAttrEntry a) = some [missingMessage ("`" ++ a ++ "`") nm] := by
  simp only [checkSchemaElt, mkAttrEntry, resolveKey,
    strContains_empty _ (expectedMarkup_ne_nil (quoteStr a)), Bool.false_eq_true, if_false]
  rw [expectedMarkupOf, decode_quote]

theorem mapM_loop_checkSchemaElt_empty (nm : String) (attrs : List String)
    (acc : List (List String)) :
    List.mapM.loop (checkSchemaElt "" nm) (attrs.map mkAttrEntry) acc =
      some (acc.reverse ++ attrs.map fun a => [missingMessage ("`" ++ a ++ "`") nm]) := by
  induction attrs generalizing acc with
  | nil => simp [List.mapM.loop]
  | cons a t ih => simp [List.mapM.loop, checkSchemaElt_mkAttrEntry_empty, ih]

theorem flatten_map_singleton {α β : Type} (f : α → β) (l : List α) :
    (l.map fun a => [f a]).flatten = l.map f := by
  induction l <;> simp [*]

/-- C6 (amended): for a catalog entry whose constructor is found but whose
canonical name has no classified fragment in the documentation index, the
checker does NOT emit a dedicated "fragment not found" violation: the map
read yields the nil (empty) fragment and the attribute-level pass runs
against it, producing one `Missing ... in docs of ...` violation per schema
attribute. -/
theorem c6_amended (nm fnc : String) (attrs : List String) (d : documentation)
    (h : d.Datasources nm = none) :
    verifyAttributes (mkConstructorFile fnc (attrs.map mkAttrEntry)) ⟨[⟨nm, fnc⟩], []⟩ d =
      some (attrs.map fun a => missingMessage ("`" ++ a ++ "`") nm) := by
  have hbody : verifyFuncBody "" nm
      [Stmt.ret [Expr.unaryExpr (Expr.compositeLit (some (Expr.ident "Resource" none))
        [Expr.keyValue (Expr.ident "Schema" none)
          (Expr.compositeLit (some (Expr.ident "Map" none)) (attrs.map mkAttrEntry))])]] =
      some (attrs.map fun a => missingMessage ("`" ++ a ++ "`") nm) := by
    simp [verifyFuncBody, processResourceElt, List.mapM, List.mapM.loop,
      mapM_loop_checkSchemaElt_empty, flatten_map_singleton]
  simp [verifyAttributes, mkConstructorFile, List.mapM, List.mapM.loop, verifyFunc,
    lastMatch, List.filter, h, hbody]

/-- C6 counterexample: the datasource `acme_region` has a found constructor
and no matching fragment anywhere in the documentation index, yet the
checker emits TWO attribute-level `Missing ... in docs of ...` violations
(one per schema attribute) and no "fragment not found" violation — the
claim predicted exactly one "fragment not found" violation and zero
attribute-level checks. -/
theorem c6_counterexample :
    verifyAttributes c6file ⟨[⟨"acme_region", "dataSourceRegion"⟩], []⟩ emptyDocs =
      some ["Missing \"`name`\" in docs of \"acme_region\"",
            "Missing \"`zone`\" in docs of \"acme_region\""] ∧
    (["Missing \"`name`\" in docs of \"acme_region\"",
      "Missing \"`zone`\" in docs of \"acme_region\""] : List String).length = 2 :=
  ⟨rfl, rfl⟩

theorem c6_witness :
    verifyAttributes (mkConstructorFile "dataSourceRegion" (["name"].map mkAttrEntry))
      ⟨[⟨"acme_region", "dataSourceRegion"⟩], []⟩ emptyDocs =
      some (["name"].map fun a => missingMessage ("`" ++ a ++ "`") "acme_region") :=
  c6_amended "acme_region" "dataSourceRegion" ["name"] emptyDocs rfl

theorem checkSchemaElt_mkAttrEntry_any (ds nm a : String) :
    checkSchemaElt ds nm (mkAttrEntry a) =
      some (if strContains ds (expectedMarkupOf (quoteStr a)) then []
            else [missingMessage (expectedMarkupOf (quoteStr a)) nm]) := by
  by_cases hc : strContains ds (expectedMarkupOf (quoteStr a)) = true
  · simp [checkSchemaElt, mkAttrEntry, resolveKey, hc]
  · simp only [Bool.not_eq_true] at hc
    simp [checkSchemaElt, mkAttrEntry, resolveKey, hc]

theorem mapM_loop_checkSchemaElt_bad (ds nm iname : String) (v : Expr) (pre : List String)
    (post : List Expr) (acc : List (List String)) :
    List.mapM.loop (checkSchemaElt ds nm)
      ((pre.map mkAttrEntry) ++ Expr.keyValue (Expr.ident iname none) v :: post) acc = none := by
  induction pre generalizing acc with
  | nil => simp [List.mapM.loop, checkSchemaElt, resolveKey]
  | cons a t ih => simp [List.mapM.loop, checkSchemaElt_mkAttrEntry_any, ih]

/-- C7 (amended): when a schema-map entry's key is an identifier with no
resolvable same-file initializer, the extractor does NOT skip the attribute
— the unchecked resolution chain panics, aborting the processing of the
file and the run (`none`), regardless of the attributes around it or of
the documentation index. -/
theorem c7_amended (nm fnc iname : String) (v : Expr) (pre : List String) (post : List Expr)
    (d : documentation) :
    verifyAttributes (mkConstructorFile fnc
        ((pre.map mkAttrEntry) ++ Expr.keyValue (Expr.ident iname none) v :: post))
      ⟨[], [⟨nm, fnc⟩]⟩ d = none := by
  have hbody : verifyFuncBody ((d.Resources nm).getD "") nm
      [Stmt.ret [Expr.unaryExpr (Expr.compositeLit (some (Expr.ident "Resource" none))
        [Expr.keyValue (Expr.ident "Schema" none)
          (Expr.compositeLit (some (Expr.ident "Map" none))
            ((pre.map mkAttrEntry) ++ Expr.keyValue (Expr.ident iname none) v :: post))])]] =
      none := by
    simp [verifyFuncBody, processResourceElt, List.mapM, List.mapM.loop,
      mapM_loop_checkSchemaElt_bad]
  simp [verifyAttributes, mkConstructorFile, List.mapM, List.mapM.loop, verifyFunc,
    lastMatch, List.filter, hbody]

/-- C7 counterexample: with an attribute whose key is an unresolvable
identifier, `verifyAttributes` aborts the whole file (`none`) — it does
not continue with the remaining attributes.  The identical file without
that attribute completes and reports its one attribute, showing what
"skip and continue" would have produced. -/
theorem c7_counterexample :
    verifyAttributes c7file ⟨[], [⟨"acme_thing", "resourceThing"⟩]⟩ emptyDocs = none ∧
    verifyAttributes c7fileGood ⟨[], [⟨"acme_thing", "resourceThing"⟩]⟩ emptyDocs =
      some ["Missing \"`after`\" in docs of \"acme_thing\""] :=
  ⟨rfl, rfl⟩

theorem canonical_eq (pn x : String) :
    (⟨pn.data ++ '_' :: x.data⟩ : String) = pn ++ "_" ++ x := by
  cases pn with
  | mk d1 =>
    cases x with
    | mk d2 =>
      show String.mk (d1 ++ '_' :: d2) = String.mk ((d1 ++ ['_']) ++ d2)
      exact congrArg String.mk (by simp)

theorem classifyLines_shape (pn path : String) (ls : List String) (n : String) (t : docType)
    (h : classifyLines pn path ls = some (some (n, t))) :
    ∃ raw, raw ≠ "" ∧ n = pn ++ "_" ++ normalizeName raw := by
  induction ls with
  | nil => simp [classifyLines] at h
  | cons l rest ih =>
    rw [classifyLines] at h
    split at h
    · split at h
      · exact absurd h (by simp)
      · split at h
        · split at h
          · exact absurd h (by simp)
          · rename_i v n0 t0 hmatch hn0
            have hpair := Option.some.inj (Option.some.inj h)
            refine ⟨n0, hn0, ?_⟩
            have := congrArg Prod.fst hpair
            simp at this
            rw [← this, canonical_eq]
        · exact ih h
    · exact ih h

/-- C8 (amended): every canonical name derived by the Classifier has the
form `providerName ++ "_" ++ normalize(raw)` for a non-empty raw suffix,
with spaces and hyphens normalized to underscores; but re-applying the
Classifier's own splitting and stripping rules to the canonical name does
NOT in general reproduce the fragment's kind or suffix, because the kind
keyword and the hyphen separators were stripped and normalized away
(see the counterexample). -/
theorem c8_amended (pn path content n : String) (t : docType)
    (h : classifyDoc pn path content = some (some (n, t))) :
    ∃ raw, raw ≠ "" ∧ n = pn ++ "_" ++ normalizeName raw :=
  classifyLines_shape pn path (linesOf content) n t h

theorem c8_witness :
    ∃ raw, raw ≠ "" ∧ "acme_foo_bar" = "acme" ++ "_" ++ normalizeName raw :=
  c8_amended "acme" "x.md" "sidebar_current: \"docs-acme-datasource-foo-bar\""
    "acme_foo_bar" docType.docTypeDatasource rfl

/-- C8 counterexample: the fragment with front matter
`sidebar_current: "docs-acme-datasource-foo-bar"` classifies as a
Datasource with canonical name `acme_foo_bar` (first conjunct); but
re-applying the Classifier's own splitting and stripping rules to that
canonical name — both directly to the stripped value (second conjunct) and
through a full classification of a fragment carrying it (third conjunct) —
fails to classify at all, reproducing neither the kind Datasource nor the
suffix `foo-bar`. -/
theorem c8_counterexample :
    classifyDoc "acme" "x.md" "sidebar_current: \"docs-acme-datasource-foo-bar\"" =
      some (some ("acme_foo_bar", docType.docTypeDatasource)) ∧
    classifyValue "x.md" (stripProviderPrefix "acme" (stripDocsPrefix "acme_foo_bar")) = none ∧
    classifyDoc "acme" "x.md" "sidebar_current: \"acme_foo_bar\"" = some none :=
  ⟨rfl, rfl, rfl⟩

/-- C10: when two candidate fragments classify to the same canonical name
and the same kind, the documentation index resulting from the walk holds
the content of the fragment visited later: the lookup yields the later
content, and (when the contents differ) not the earlier one — which is
therefore never consulted by the cross-reference checker, whose only access
to fragments is this lookup. -/
theorem c10_later_fragment_wins (pn : String) (exts : List String)
    (fs gs : List (String × String)) (p1 c1 p2 c2 n : String) (t : docType) (d : documentation)
    (h1 : candidateDoc exts p1 = true) (hc1 : classifyDoc pn p1 c1 = some (some (n, t)))
    (h2 : candidateDoc exts p2 = true) (hc2 : classifyDoc pn p2 c2 = some (some (n, t)))
    (hload : loadDocumentation pn exts (fs ++ (p1, c1) :: gs ++ [(p2, c2)]) = some d) :
    docLookup d t n = some c2 ∧ (c1 ≠ c2 → docLookup d t n ≠ some c1) := by
  have hsplit : fs ++ (p1, c1) :: gs ++ [(p2, c2)] =
      (fs ++ (p1, c1) :: gs) ++ [(p2, c2)] := by simp
  rw [loadDocumentation, hsplit, List.foldlM_append] at hload
  cases hfold : List.foldlM (loadStep pn exts) ⟨fun _ => none, fun _ => none⟩
      (fs ++ (p1, c1) :: gs) with
  | none => rw [hfold] at hload; simp at hload
  | some dmid =>
    rw [hfold] at hload
    simp only [Option.bind_eq_bind, Option.some_bind, List.foldlM, bind_pure] at hload
    simp only [loadStep, h2, hc2, if_true] at hload
    have hd : docInsert dmid n c2 t = d := by
      exact Option.some.inj hload
    rw [← hd]
    have hl : docLookup (docInsert dmid n c2 t) t n = some c2 := by
      cases t <;> simp [docLookup, docInsert]
    refine ⟨hl, ?_⟩
    intro hne hcontra
    rw [hl] at hcontra
    exact hne (Option.some.inj hcontra).symm

theorem c10_witness :
    docLookup c10D docType.docTypeDatasource "acme_foo" = some c10c2 ∧
    (c10c1 ≠ c10c2 → docLookup c10D docType.docTypeDatasource "acme_foo" ≠ some c10c1) :=
  c10_later_fragment_wins "acme" ["md"] [] [] "a.md" c10c1 "b.md" c10c2 "acme_foo"
    docType.docTypeDatasource c10D rfl rfl rfl rfl rfl

end TT
